import Mathlib

/-!
Verification of the `DiffText` / `TypewriterText` / `FadeOutText` component
(text-diff animation and rendering pipeline).

Texts are embedded as `List Char`.  The diff computation itself lives in the
external `diff` package (`diffWords` / `diffChars`); it is modelled from the
spec as a longest-common-subsequence edit script, grouped into segments.
The animation driver (`animate` from the motion library) is likewise modelled
from the spec as a timeline with a duration, a delay and an optional stop time.
Everything in the component file itself (prop defaults, the render switch,
`handleRemoveComplete`, the duration formula, the slice update) is embedded
directly from the source.
-/

namespace DiffTextSpec

/-- A token produced by tokenization: a contiguous run of characters. -/
abbrev Tok := List Char

/-- Classification of a diff segment: `unchanged`, `added` or `removed`
(the `added` / `removed` flags of the external diff library's change objects,
which are mutually exclusive). -/
inductive SegKind : Type
  | unchanged : SegKind
  | added : SegKind
  | removed : SegKind
deriving DecidableEq, Repr

/-- One segment of the diff output: a literal text `value` and its `kind`. -/
structure Segment : Type where
  value : List Char
  kind : SegKind
deriving DecidableEq, Repr

/-- One primitive edit operation of an edit script over tokens. -/
inductive DiffOp : Type
  | keep : Tok → DiffOp
  | add : Tok → DiffOp
  | del : Tok → DiffOp
deriving DecidableEq, Repr

/-- Number of non-`keep` operations: the cost an LCS-based diff minimises. -/
def opCost : List DiffOp → Nat
  | [] => 0
  | .keep _ :: ops => opCost ops
  | .add _ :: ops => 1 + opCost ops
  | .del _ :: ops => 1 + opCost ops

/-- Fuelled recursion for the LCS edit script; the fuel strictly exceeds the
remaining work, so with fuel at least the total number of tokens the
out-of-fuel branch is never taken. -/
def lcsDiffF : Nat → List Tok → List Tok → List DiffOp
  | 0, _, _ => []
  | _ + 1, [], [] => []
  | f + 1, [], y :: ys => .add y :: lcsDiffF f [] ys
  | f + 1, x :: xs, [] => .del x :: lcsDiffF f xs []
  | f + 1, x :: xs, y :: ys =>
      if x = y then .keep x :: lcsDiffF f xs ys
      else if opCost (lcsDiffF f xs (y :: ys)) ≤ opCost (lcsDiffF f (x :: xs) ys) then
        .del x :: lcsDiffF f xs (y :: ys)
      else
        .add y :: lcsDiffF f (x :: xs) ys

/-- Modelled from the spec: the external diff library computes a
minimal-edit-distance (longest-common-subsequence based) edit script over the
token lists of the two texts.  Classic recursive formulation: equal heads are
kept; otherwise the cheaper of deleting the old head or adding the new head is
chosen. -/
def lcsDiff (xs ys : List Tok) : List DiffOp :=
  lcsDiffF (xs.length + ys.length) xs ys

/-- Kind of segment an edit operation contributes to. -/
def opKind : DiffOp → SegKind
  | .keep _ => .unchanged
  | .add _ => .added
  | .del _ => .removed

/-- Token carried by an edit operation. -/
def opValue : DiffOp → List Char
  | .keep a => a
  | .add a => a
  | .del a => a

/-- Modelled from the spec: the external diff library groups adjacent edit
operations of the same kind into one change object (segment), concatenating
their text. -/
def buildSegments : List DiffOp → List Segment
  | [] => []
  | op :: ops =>
      match buildSegments ops with
      | [] => [⟨opValue op, opKind op⟩]
      | seg :: segs =>
          if opKind op = seg.kind then ⟨opValue op ++ seg.value, seg.kind⟩ :: segs
          else ⟨opValue op, opKind op⟩ :: seg :: segs

/-- Character-level tokenization (`diffChars`): one token per character. -/
def tokenizeChars (s : List Char) : List Tok :=
  s.map fun c => [c]

/-- Word characters for word-level tokenization boundaries. -/
def isWordChar (c : Char) : Bool :=
  c.isAlphanum || c == '_'

/-- Modelled from the spec: word-level tokenization (`diffWords`) splits the
text at word/non-word boundaries, keeping maximal runs of same-class
characters together as one token. -/
def tokenizeWords : List Char → List Tok
  | [] => []
  | c :: cs =>
      match tokenizeWords cs with
      | [] => [[c]]
      | t :: ts =>
          if isWordChar c = isWordChar (t.headD c) then (c :: t) :: ts
          else [c] :: t :: ts

/-- Diff granularity mode of the component (`diffMode` prop). -/
inductive DiffMode : Type
  | words : DiffMode
  | chars : DiffMode
deriving DecidableEq, Repr

/-- Tokenization selected by the diff mode. -/
def tokenize : DiffMode → List Char → List Tok
  | .words, s => tokenizeWords s
  | .chars, s => tokenizeChars s

/-- The diff computation of the component: `diffFunction(oldText, newText)`
where `diffFunction` is `diffChars` in chars mode and `diffWords` otherwise
(source lines 111-113), modelled as the grouped LCS edit script over the
mode's tokens. -/
def diffText (mode : DiffMode) (oldText newText : List Char) : List Segment :=
  buildSegments (lcsDiff (tokenize mode oldText) (tokenize mode newText))

/-- Concatenation of the values of all segments whose kind is not `added`. -/
def concatNonAdded : List Segment → List Char
  | [] => []
  | s :: ss => (if s.kind = .added then [] else s.value) ++ concatNonAdded ss

/-- Concatenation of the values of all segments whose kind is not `removed`. -/
def concatNonRemoved : List Segment → List Char
  | [] => []
  | s :: ss => (if s.kind = .removed then [] else s.value) ++ concatNonRemoved ss

/-- Concatenation of the values of all segments. -/
def concatAll : List Segment → List Char
  | [] => []
  | s :: ss => s.value ++ concatAll ss

/-- Old-text side of an edit script: text of `keep` and `del` operations. -/
def opsNonAdded : List DiffOp → List Char
  | [] => []
  | .keep a :: ops => a ++ opsNonAdded ops
  | .del a :: ops => a ++ opsNonAdded ops
  | .add _ :: ops => opsNonAdded ops

/-- New-text side of an edit script: text of `keep` and `add` operations. -/
def opsNonRemoved : List DiffOp → List Char
  | [] => []
  | .keep a :: ops => a ++ opsNonRemoved ops
  | .add a :: ops => a ++ opsNonRemoved ops
  | .del _ :: ops => opsNonRemoved ops

theorem tokenizeChars_flatten (s : List Char) : (tokenizeChars s).flatten = s := by
  induction s with
  | nil => rfl
  | cons c cs ih => simp [tokenizeChars] at *; simpa using ih

theorem tokenizeWords_flatten (s : List Char) : (tokenizeWords s).flatten = s := by
  induction s with
  | nil => rfl
  | cons c cs ih =>
      rw [tokenizeWords]
      cases h : tokenizeWords cs with
      | nil =>
          rw [h] at ih
          simp only [List.flatten_nil] at ih
          simp [← ih]
      | cons t ts =>
          rw [h] at ih
          by_cases hci : isWordChar c = isWordChar (t.headD c)
          · simp only [if_pos hci, List.flatten_cons] at *
            simpa using ih
          · simp only [if_neg hci, List.flatten_cons] at *
            simpa using ih

theorem tokenize_flatten (mode : DiffMode) (s : List Char) :
    (tokenize mode s).flatten = s := by
  cases mode
  · exact tokenizeWords_flatten s
  · exact tokenizeChars_flatten s

theorem opsNonAdded_lcsDiffF (f : Nat) :
    ∀ (xs ys : List Tok), xs.length + ys.length ≤ f →
      opsNonAdded (lcsDiffF f xs ys) = xs.flatten := by
  induction f with
  | zero =>
      intro xs ys h
      cases xs with
      | nil =>
          cases ys with
          | nil => rfl
          | cons y ys => simp at h
      | cons x xs => simp at h
  | succ f ih =>
      intro xs ys h
      cases xs with
      | nil =>
          cases ys with
          | nil => rfl
          | cons y ys =>
              simp only [lcsDiffF, opsNonAdded]
              apply ih
              simp at h ⊢
              omega
      | cons x xs =>
          cases ys with
          | nil =>
              simp only [lcsDiffF, opsNonAdded]
              rw [ih xs [] (by simp at h ⊢; omega)]
              simp
          | cons y ys =>
              simp only [lcsDiffF]
              by_cases hxy : x = y
              · rw [if_pos hxy]
                simp only [opsNonAdded]
                rw [ih xs ys (by simp at h ⊢; omega)]
                simp
              · rw [if_neg hxy]
                by_cases hle : opCost (lcsDiffF f xs (y :: ys)) ≤
                    opCost (lcsDiffF f (x :: xs) ys)
                · rw [if_pos hle]
                  simp only [opsNonAdded]
                  rw [ih xs (y :: ys) (by simp at h ⊢; omega)]
                  simp
                · rw [if_neg hle]
                  simp only [opsNonAdded]
                  exact ih (x :: xs) ys (by simp at h ⊢; omega)

theorem opsNonRemoved_lcsDiffF (f : Nat) :
    ∀ (xs ys : List Tok), xs.length + ys.length ≤ f →
      opsNonRemoved (lcsDiffF f xs ys) = ys.flatten := by
  induction f with
  | zero =>
      intro xs ys h
      cases xs with
      | nil =>
          cases ys with
          | nil => rfl
          | cons y ys => simp at h
      | cons x xs => simp at h
  | succ f ih =>
      intro xs ys h
      cases xs with
      | nil =>
          cases ys with
          | nil => rfl
          | cons y ys =>
              simp only [lcsDiffF, opsNonRemoved]
              rw [ih [] ys (by simp at h ⊢; omega)]
              simp
      | cons x xs =>
          cases ys with
          | nil =>
              simp only [lcsDiffF, opsNonRemoved]
              exact ih xs [] (by simp at h ⊢; omega)
          | cons y ys =>
              simp only [lcsDiffF]
              by_cases hxy : x = y
              · rw [if_pos hxy]
                simp only [opsNonRemoved]
                rw [ih xs ys (by simp at h ⊢; omega)]
                simp [hxy]
              · rw [if_neg hxy]
                by_cases hle : opCost (lcsDiffF f xs (y :: ys)) ≤
                    opCost (lcsDiffF f (x :: xs) ys)
                · rw [if_pos hle]
                  simp only [opsNonRemoved]
                  exact ih xs (y :: ys) (by simp at h ⊢; omega)
                · rw [if_neg hle]
                  simp only [opsNonRemoved]
                  rw [ih (x :: xs) ys (by simp at h ⊢; omega)]
                  simp

theorem opsNonAdded_lcsDiff (xs ys : List Tok) :
    opsNonAdded (lcsDiff xs ys) = xs.flatten :=
  opsNonAdded_lcsDiffF _ xs ys le_rfl

theorem opsNonRemoved_lcsDiff (xs ys : List Tok) :
    opsNonRemoved (lcsDiff xs ys) = ys.flatten :=
  opsNonRemoved_lcsDiffF _ xs ys le_rfl

theorem concatNonAdded_buildSegments_cons (op : DiffOp) (ops : List DiffOp) :
    concatNonAdded (buildSegments (op :: ops)) =
      (if opKind op = .added then [] else opValue op) ++
        concatNonAdded (buildSegments ops) := by
  cases hb : buildSegments ops with
  | nil => simp [buildSegments, hb, concatNonAdded]
  | cons seg segs =>
      by_cases hk : opKind op = seg.kind
      · by_cases ha : seg.kind = .added
        · simp [buildSegments, hb, hk, concatNonAdded, ha, hk.trans ha]
        · have hoa : ¬ opKind op = .added := by rw [hk]; exact ha
          simp [buildSegments, hb, hk, concatNonAdded, ha, hoa]
      · simp [buildSegments, hb, hk, concatNonAdded]

theorem concatNonRemoved_buildSegments_cons (op : DiffOp) (ops : List DiffOp) :
    concatNonRemoved (buildSegments (op :: ops)) =
      (if opKind op = .removed then [] else opValue op) ++
        concatNonRemoved (buildSegments ops) := by
  cases hb : buildSegments ops with
  | nil => simp [buildSegments, hb, concatNonRemoved]
  | cons seg segs =>
      by_cases hk : opKind op = seg.kind
      · by_cases ha : seg.kind = .removed
        · simp [buildSegments, hb, hk, concatNonRemoved, ha, hk.trans ha]
        · have hoa : ¬ opKind op = .removed := by rw [hk]; exact ha
          simp [buildSegments, hb, hk, concatNonRemoved, ha, hoa]
      · simp [buildSegments, hb, hk, concatNonRemoved]

theorem concatNonAdded_buildSegments (ops : List DiffOp) :
    concatNonAdded (buildSegments ops) = opsNonAdded ops := by
  induction ops with
  | nil => rfl
  | cons op ops ih =>
      rw [concatNonAdded_buildSegments_cons, ih]
      cases op <;> simp [opKind, opValue, opsNonAdded]

theorem concatNonRemoved_buildSegments (ops : List DiffOp) :
    concatNonRemoved (buildSegments ops) = opsNonRemoved ops := by
  induction ops with
  | nil => rfl
  | cons op ops ih =>
      rw [concatNonRemoved_buildSegments_cons, ih]
      cases op <;> simp [opKind, opValue, opsNonRemoved]

/-- A rendered node of the component's output (source lines 120-177):
the visual/animated representation chosen for one segment.  A `fadeOut`
node carries the index its completion callback is bound to. -/
inductive Rendered : Type
  | typewriter : List Char → Rendered
  | staticAdded : List Char → Rendered
  | fadeOut : List Char → Nat → Rendered
  | staticRemoved : List Char → Rendered
  | plain : List Char → Rendered
deriving DecidableEq, Repr

/-- The render switch of `DiffText` for one diff segment at position `index`
(source lines 122-176): a removed segment whose index is in `removedParts` is
skipped first; an added segment renders as typewriter or static; a removed
segment is omitted when `showRemoved` is false and otherwise renders as a
fade-out (whose completion callback is bound to `index`) or static; an
unchanged segment renders plainly. -/
def renderSegment (showRemoved animateChanges : Bool) (removedParts : Finset Nat)
    (index : Nat) (part : Segment) : Option Rendered :=
  if part.kind = .removed ∧ index ∈ removedParts then none
  else if part.kind = .added then
    if animateChanges then some (.typewriter part.value)
    else some (.staticAdded part.value)
  else if part.kind = .removed then
    if !showRemoved then none
    else if animateChanges then some (.fadeOut part.value index)
    else some (.staticRemoved part.value)
  else some (.plain part.value)

/-- Full render of the segment list, `changes.map((part, index) => ...)` with
the `null` entries dropped. -/
def renderSegments (showRemoved animateChanges : Bool) (removedParts : Finset Nat)
    (segs : List Segment) : List Rendered :=
  segs.enum.filterMap fun p => renderSegment showRemoved animateChanges removedParts p.1 p.2

/-- The `handleRemoveComplete` callback (source lines 116-118): copies the
previous set and adds the reported index. -/
def handleRemoveComplete (prev : Finset Nat) (index : Nat) : Finset Nat :=
  insert index prev

/-- The mounted component's state: the current diff-relevant props and the
`removedParts` React state (source lines 101-109). -/
structure DiffTextState : Type where
  oldText : List Char
  newText : List Char
  diffMode : DiffMode
  removedParts : Finset Nat

/-- Events over the lifetime of one mounted component: a change of the input
props, or an invocation of the removal-completion callback. -/
inductive DiffTextEvent : Type
  | setProps : List Char → List Char → DiffMode → DiffTextEvent
  | removeComplete : Nat → DiffTextEvent

/-- State transition of the mounted component: a prop change makes the next
render recompute the diff but leaves the `useState`-held `removedParts`
untouched (the source has no effect resetting it); the completion callback
runs `handleRemoveComplete`. -/
def DiffTextState.step (s : DiffTextState) : DiffTextEvent → DiffTextState
  | .setProps o n m => { s with oldText := o, newText := n, diffMode := m }
  | .removeComplete i => { s with removedParts := handleRemoveComplete s.removedParts i }

/-- Run a sequence of events from a state. -/
def DiffTextState.run (s : DiffTextState) (es : List DiffTextEvent) : DiffTextState :=
  es.foldl DiffTextState.step s

/-- Output of the component in state `s` under the given display options: the
render of the freshly computed diff against the current `removedParts`. -/
def DiffTextState.render (s : DiffTextState) (showRemoved animateChanges : Bool) :
    List Rendered :=
  renderSegments showRemoved animateChanges s.removedParts
    (diffText s.diffMode s.oldText s.newText)

/-- The raw props as received by the component; in the host language any prop
may be absent (`undefined`), which `none` represents. -/
structure DiffTextProps : Type where
  oldText : Option (List Char)
  newText : Option (List Char)
  diffMode : Option DiffMode
  showRemoved : Option Bool
  animateChanges : Option Bool
  className : Option (List Char)

/-- The props after the destructuring of source lines 101-108: `diffMode`,
`showRemoved`, `animateChanges` and `className` are defaulted, `oldText` and
`newText` are not and keep whatever value was supplied. -/
structure ResolvedProps : Type where
  oldText : Option (List Char)
  newText : Option (List Char)
  diffMode : DiffMode
  showRemoved : Bool
  animateChanges : Bool
  className : List Char

/-- The destructuring defaults of source lines 101-108: only
`diffMode = 'words'`, `showRemoved = true`, `animateChanges = true` and
`className = ''` have defaults; an absent `oldText` or `newText` passes
through unchanged and is handed to the diff function as is. -/
def resolveProps (p : DiffTextProps) : ResolvedProps where
  oldText := p.oldText
  newText := p.newText
  diffMode := p.diffMode.getD .words
  showRemoved := p.showRemoved.getD true
  animateChanges := p.animateChanges.getD true
  className := p.className.getD []

/-- Timeline of one `animate` call: a `duration` and a `delay` in seconds
(modelled from the spec: the completion handler fires once, when the delayed
animation finishes, unless the animation was stopped first; stopping an
already-completed animation is a no-op). -/
structure AnimSpec : Type where
  duration : ℚ
  delay : ℚ

/-- The strike-through animation of `FadeOutText` (source lines 50-53):
duration 0.3 s, no delay, no completion handler. -/
def strikeAnim : AnimSpec := ⟨0.3, 0⟩

/-- The fade-out animation of `FadeOutText` (source lines 56-61): duration
0.5 s after a 0.3 s delay; its `onComplete` is the removal-completion
callback. -/
def fadeAnim : AnimSpec := ⟨0.5, 0.3⟩

/-- Time from the start of an animation to its completion. -/
def completionTime (a : AnimSpec) : ℚ := a.delay + a.duration

/-- Modelled from the spec: the number of times the completion handler of one
animation run fires, given an optional stop time (the `stop()` from the
unmount cleanup, source lines 63-66).  An unstopped run fires it exactly
once, at `completionTime`; stopping at or before that time prevents it. -/
def onCompleteCount (a : AnimSpec) (stopAt : Option ℚ) : Nat :=
  match stopAt with
  | none => 1
  | some ts => if completionTime a < ts then 1 else 0

/-- Reveal duration of `TypewriterText` (source line 15):
`Math.max(0.5, Math.min(1.5, text.length * 0.04))` seconds. -/
def revealDuration (len : Nat) : ℚ :=
  max 0.5 (min 1.5 ((len : ℚ) * 0.04))

/-- Progress of the `TypewriterText` reveal at time `t` after mount (modelled
from the spec: with `ease: 'linear'` the animated value advances linearly
from 0 to 1 over the duration, clamped outside the animation window). -/
def revealProgress (len : Nat) (t : ℚ) : ℚ :=
  min (max (t / revealDuration len) 0) 1

/-- Number of characters shown at time `t` (source lines 14-18): the animated
value `latest` runs linearly from 0 to `text.length` and the shown text is
`text.slice(0, Math.ceil(latest))`. -/
def revealCount (len : Nat) (t : ℚ) : Nat :=
  ⌈revealProgress len t * (len : ℚ)⌉₊

/-- Text rendered by `TypewriterText` at time `t` after mount. -/
def typewriterShown (text : List Char) (t : ℚ) : List Char :=
  text.take (revealCount text.length t)

/-- Modelled from the spec: once the reveal animation is stopped at time
`stopAt` (the unmount cleanup of source line 22), the shown text no longer
updates and stays at its value at the stop time. -/
def typewriterShownStopped (text : List Char) (stopAt t : ℚ) : List Char :=
  typewriterShown text (min t stopAt)

theorem lcsDiffF_self (f : Nat) :
    ∀ (xs : List Tok), xs.length + xs.length ≤ f →
      lcsDiffF f xs xs = xs.map .keep := by
  induction f with
  | zero =>
      intro xs h
      cases xs with
      | nil => rfl
      | cons x xs => simp at h
  | succ f ih =>
      intro xs h
      cases xs with
      | nil => rfl
      | cons x xs =>
          have h2 : xs.length + xs.length ≤ f := by simp at h; omega
          simp [lcsDiffF, ih xs h2]

theorem lcsDiff_self (xs : List Tok) : lcsDiff xs xs = xs.map .keep :=
  lcsDiffF_self _ xs le_rfl

theorem buildSegments_cons (op : DiffOp) (ops : List DiffOp) :
    buildSegments (op :: ops) =
      match buildSegments ops with
      | [] => [⟨opValue op, opKind op⟩]
      | seg :: segs =>
          if opKind op = seg.kind then ⟨opValue op ++ seg.value, seg.kind⟩ :: segs
          else ⟨opValue op, opKind op⟩ :: seg :: segs := rfl

theorem buildSegments_keeps (t : Tok) (ts : List Tok) :
    buildSegments ((t :: ts).map .keep) = [⟨(t :: ts).flatten, .unchanged⟩] := by
  induction ts generalizing t with
  | nil => simp [buildSegments, opValue, opKind]
  | cons u us ih =>
      rw [List.map_cons, buildSegments_cons, ih u]
      simp [opKind, opValue]

theorem tokenizeWords_ne_nil (c : Char) (cs : List Char) :
    tokenizeWords (c :: cs) ≠ [] := by
  rw [tokenizeWords]
  cases tokenizeWords cs with
  | nil => simp
  | cons t ts =>
      split
      · simp
      · split <;> simp

theorem tokenize_ne_nil (mode : DiffMode) (t : List Char) (h : t ≠ []) :
    tokenize mode t ≠ [] := by
  cases t with
  | nil => cases h rfl
  | cons c cs =>
      cases mode with
      | words => exact tokenizeWords_ne_nil c cs
      | chars => simp [tokenize, tokenizeChars]

theorem tokenize_nil (mode : DiffMode) : tokenize mode [] = [] := by
  cases mode <;> rfl

/-- The diff of a text against itself: empty if the text is empty, otherwise
one unchanged segment holding the whole text. -/
theorem diffText_self (mode : DiffMode) (t : List Char) :
    diffText mode t t = if t = [] then [] else [⟨t, .unchanged⟩] := by
  by_cases h : t = []
  · subst h
    simp [diffText, tokenize_nil, lcsDiff, lcsDiffF, buildSegments]
  · rw [if_neg h]
    unfold diffText
    rw [lcsDiff_self]
    cases htok : tokenize mode t with
    | nil => cases tokenize_ne_nil mode t h htok
    | cons tok toks =>
        rw [buildSegments_keeps]
        rw [← htok, tokenize_flatten]

theorem revealDuration_pos (len : Nat) : 0 < revealDuration len :=
  lt_of_lt_of_le (by norm_num) (le_max_left _ _)

theorem revealProgress_mono (len : Nat) {t1 t2 : ℚ} (h : t1 ≤ t2) :
    revealProgress len t1 ≤ revealProgress len t2 := by
  unfold revealProgress
  have hd := revealDuration_pos len
  gcongr

theorem revealProgress_at_duration (len : Nat) :
    revealProgress len (revealDuration len) = 1 := by
  unfold revealProgress
  rw [div_self (ne_of_gt (revealDuration_pos len))]
  norm_num

theorem renderSegment_indep (sr ac : Bool) (rp : Finset Nat) (idx : Nat)
    (seg : Segment) (h : seg.kind ≠ .removed) :
    renderSegment sr ac rp idx seg = renderSegment sr ac ∅ idx seg := by
  unfold renderSegment
  rw [if_neg (fun hc : seg.kind = .removed ∧ idx ∈ rp => h hc.1),
    if_neg (fun hc : seg.kind = .removed ∧ idx ∈ (∅ : Finset Nat) => h hc.1)]

theorem renderSegment_no_fadeOut (ac : Bool) (rp : Finset Nat) (idx j : Nat)
    (seg : Segment) (text : List Char)
    (hp : renderSegment false ac rp idx seg = some (.fadeOut text j)) : False := by
  by_cases hm : idx ∈ rp <;> cases hk : seg.kind <;> cases ac <;>
    simp [renderSegment, hm, hk] at hp

theorem removedParts_step_mono (s : DiffTextState) (e : DiffTextEvent) :
    s.removedParts ⊆ (s.step e).removedParts := by
  cases e with
  | setProps o n m => exact Finset.Subset.refl _
  | removeComplete i => exact Finset.subset_insert _ _

theorem removedParts_run_mono (es : List DiffTextEvent) :
    ∀ s : DiffTextState, s.removedParts ⊆ (s.run es).removedParts := by
  induction es with
  | nil => intro s; exact Finset.Subset.refl _
  | cons e es ih =>
      intro s
      exact Finset.Subset.trans (removedParts_step_mono s e) (ih (s.step e))

/-- Initial state of the stale-index scenario: mounted with `oldText = "a"`,
`newText = ""`, word mode and empty `removedParts`; the diff is one removed
segment "a" at index 0. -/
def staleStart : DiffTextState := ⟨'a' :: [], [], .words, ∅⟩

/-- The stale-index event sequence: the removal at index 0 completes its
fade, then the props change to `oldText = "b"`, `newText = ""`. -/
def staleEvents : List DiffTextEvent :=
  [.removeComplete 0, .setProps ('b' :: []) [] .words]

/-- Claim C1: for every pair of texts and every diff mode, the diff's segment
sequence covers both texts — concatenating the values of the segments whose
kind is not `added` yields the old text, and concatenating the values of the
segments whose kind is not `removed` yields the new text. -/
theorem claim_C1 (mode : DiffMode) (oldText newText : List Char) :
    concatNonAdded (diffText mode oldText newText) = oldText ∧
      concatNonRemoved (diffText mode oldText newText) = newText := by
  unfold diffText
  rw [concatNonAdded_buildSegments, concatNonRemoved_buildSegments,
    opsNonAdded_lcsDiff, opsNonRemoved_lcsDiff, tokenize_flatten, tokenize_flatten]
  exact ⟨rfl, rfl⟩

/-- Claim C2 (the code violates it): after the diff inputs change, the index
recorded under the previous diff is still in `removedParts`; the new diff is
one removed segment "b" at index 0, yet the component renders nothing — the
stale index suppresses a segment of the new diff that never animated.  Under
the claimed reset (empty `removedParts`) the same render would contain the
fade-out node for that segment. -/
theorem claim_C2_codeBug :
    (DiffTextState.run staleStart staleEvents).removedParts = {0} ∧
      diffText .words ('b' :: []) [] = [⟨'b' :: [], .removed⟩] ∧
      DiffTextState.render (DiffTextState.run staleStart staleEvents) true true = [] ∧
      renderSegments true true ∅ (diffText .words ('b' :: []) []) =
        [.fadeOut ('b' :: []) 0] := by
  refine ⟨?_, ?_, ?_, ?_⟩ <;> decide

/-- Claim C3 amended: only `diffMode`, `showRemoved`, `animateChanges` and
`className` receive destructuring defaults; `oldText` and `newText` have no
default, so an absent (`undefined`) text prop stays absent and is handed to
the diff function as is — it is not replaced by the empty string. -/
theorem claim_C3 (p : DiffTextProps) (ho : p.oldText = none)
    (hn : p.newText = none) :
    (resolveProps p).oldText = none ∧
      (resolveProps p).newText = none ∧
      (resolveProps p).diffMode = p.diffMode.getD .words ∧
      (resolveProps p).showRemoved = p.showRemoved.getD true ∧
      (resolveProps p).animateChanges = p.animateChanges.getD true :=
  ⟨ho, hn, rfl, rfl, rfl⟩

/-- Witness for the amended C3 at fully absent props. -/
theorem claim_C3_witness :
    (resolveProps ⟨none, none, none, none, none, none⟩).oldText = none ∧
      (resolveProps ⟨none, none, none, none, none, none⟩).newText = none ∧
      (resolveProps ⟨none, none, none, none, none, none⟩).diffMode = DiffMode.words ∧
      (resolveProps ⟨none, none, none, none, none, none⟩).showRemoved = true ∧
      (resolveProps ⟨none, none, none, none, none, none⟩).animateChanges = true :=
  claim_C3 ⟨none, none, none, none, none, none⟩ rfl rfl

/-- Counterexample to C3 as stated: with `oldText` absent, the value the
component hands to the diff computation is still absent — not the empty
string, so no defensive empty-string default exists. -/
theorem claim_C3_counterexample :
    (resolveProps ⟨none, none, none, none, none, none⟩).oldText ≠ some [] := by
  decide

/-- Claim C4: with `showRemoved = true` and `animateChanges = true` a removed
segment renders as a fade-out whose completion callback is bound to the
segment's own index; an unstopped fade run fires its completion handler
exactly once, at 0.8 s — no earlier than 0.6 s — after the animation starts;
and once the callback has run, every later render (any options) omits the
segment. -/
theorem claim_C4 (rp : Finset Nat) (idx : Nat) (seg : Segment)
    (h : seg.kind = .removed) (hnm : idx ∉ rp) :
    onCompleteCount fadeAnim none = 1 ∧
      completionTime fadeAnim = 0.8 ∧
      (0.6 : ℚ) ≤ completionTime fadeAnim ∧
      renderSegment true true rp idx seg = some (.fadeOut seg.value idx) ∧
      (∀ sr ac : Bool,
        renderSegment sr ac (handleRemoveComplete rp idx) idx seg = none) := by
  refine ⟨rfl, ?_, ?_, ?_, ?_⟩
  · norm_num [completionTime, fadeAnim]
  · norm_num [completionTime, fadeAnim]
  · simp [renderSegment, h, hnm]
  · intro sr ac
    simp [renderSegment, h, handleRemoveComplete]

/-- Witness for C4 at index 0, segment "a", empty completion set. -/
theorem claim_C4_witness :
    onCompleteCount fadeAnim none = 1 ∧
      completionTime fadeAnim = 0.8 ∧
      (0.6 : ℚ) ≤ completionTime fadeAnim ∧
      renderSegment true true ∅ 0 ⟨'a' :: [], .removed⟩ =
        some (.fadeOut ('a' :: []) 0) ∧
      (∀ sr ac : Bool,
        renderSegment sr ac (handleRemoveComplete ∅ 0) 0 ⟨'a' :: [], .removed⟩ =
          none) :=
  claim_C4 ∅ 0 ⟨'a' :: [], .removed⟩ rfl (Finset.not_mem_empty 0)

/-- Claim C5: the typewriter reveal shows `value[0 : ceil(progress * len)]`
with `progress` advancing linearly (equal to elapsed time over the duration
within the animation window) for a duration of `clamp(len * 0.04, 0.5, 1.5)`
seconds — exactly 1.5 s for 100 characters and 0.5 s for 5 —, the number of
revealed characters is non-decreasing in time, and the full text is shown at
the end of the duration. -/
theorem claim_C5 (text : List Char) (t t1 t2 : ℚ) (h0 : 0 ≤ t)
    (hdur : t ≤ revealDuration text.length) (h12 : t1 ≤ t2) :
    typewriterShown text t =
        text.take ⌈revealProgress text.length t * (text.length : ℚ)⌉₊ ∧
      revealProgress text.length t = t / revealDuration text.length ∧
      revealCount text.length t1 ≤ revealCount text.length t2 ∧
      typewriterShown text (revealDuration text.length) = text ∧
      revealDuration 100 = 1.5 ∧
      revealDuration 5 = 0.5 := by
  refine ⟨rfl, ?_, ?_, ?_, ?_, ?_⟩
  · unfold revealProgress
    have hd := revealDuration_pos text.length
    rw [max_eq_left (div_nonneg h0 hd.le), min_eq_left ((div_le_one hd).mpr hdur)]
  · exact Nat.ceil_le_ceil
      (mul_le_mul_of_nonneg_right (revealProgress_mono _ h12) (Nat.cast_nonneg _))
  · unfold typewriterShown revealCount
    rw [revealProgress_at_duration, one_mul, Nat.ceil_natCast, List.take_length]
  · norm_num [revealDuration]
  · norm_num [revealDuration]

/-- Witness for C5 on the one-character text "a", times 0 and 0 ≤ 1. -/
theorem claim_C5_witness :
    revealCount 1 0 ≤ revealCount 1 1 ∧
      revealDuration 100 = 1.5 ∧
      revealDuration 5 = 0.5 ∧
      typewriterShown ('a' :: []) (revealDuration 1) = 'a' :: [] :=
  ⟨(claim_C5 ('a' :: []) 0 0 1 le_rfl (revealDuration_pos 1).le (by norm_num)).2.2.1,
    (claim_C5 ('a' :: []) 0 0 1 le_rfl (revealDuration_pos 1).le (by norm_num)).2.2.2.2.1,
    (claim_C5 ('a' :: []) 0 0 1 le_rfl (revealDuration_pos 1).le (by norm_num)).2.2.2.2.2,
    (claim_C5 ('a' :: []) 0 0 1 le_rfl (revealDuration_pos 1).le (by norm_num)).2.2.2.1⟩

/-- Claim C6: with `showRemoved = false` a removed segment produces no
rendered output regardless of `animateChanges`, and no fade-out node (the
only carrier of a completion callback) ever appears in the render, so no
completion callback can fire. -/
theorem claim_C6 (ac : Bool) (rp : Finset Nat) (idx : Nat) (seg : Segment)
    (h : seg.kind = .removed) (segs : List Segment) (text : List Char) (j : Nat) :
    renderSegment false ac rp idx seg = none ∧
      Rendered.fadeOut text j ∉ renderSegments false ac rp segs := by
  constructor
  · by_cases hm : idx ∈ rp <;> simp [renderSegment, h, hm]
  · intro hmem
    simp only [renderSegments, List.mem_filterMap] at hmem
    obtain ⟨p, _, hp⟩ := hmem
    exact renderSegment_no_fadeOut ac rp p.1 j p.2 text hp

/-- Witness for C6 at the removed segment "a" at index 0. -/
theorem claim_C6_witness :
    renderSegment false true ∅ 0 ⟨'a' :: [], .removed⟩ = none ∧
      Rendered.fadeOut ('a' :: []) 0 ∉
        renderSegments false true ∅ [⟨'a' :: [], .removed⟩] :=
  claim_C6 true ∅ 0 ⟨'a' :: [], .removed⟩ rfl [⟨'a' :: [], .removed⟩] ('a' :: []) 0

/-- Claim C7: stopping an animation strictly before its completion time (the
unmount cleanup) means the completion handler never fires, and a stopped
typewriter reveal performs no further text updates — the shown text is the
same at all times past the stop. -/
theorem claim_C7 (a : AnimSpec) (ts t1 t2 : ℚ) (text : List Char)
    (hstop : ts < completionTime a) (h1 : ts ≤ t1) (h2 : ts ≤ t2) :
    onCompleteCount a (some ts) = 0 ∧
      typewriterShownStopped text ts t1 = typewriterShownStopped text ts t2 := by
  constructor
  · simp only [onCompleteCount]
    rw [if_neg (lt_asymm hstop)]
  · unfold typewriterShownStopped
    rw [min_eq_right h1, min_eq_right h2]

/-- Witness for C7: the fade stopped at 0.1 s, observed at 1 s and 2 s. -/
theorem claim_C7_witness :
    onCompleteCount fadeAnim (some 0.1) = 0 ∧
      typewriterShownStopped ('a' :: []) 0.1 1 =
        typewriterShownStopped ('a' :: []) 0.1 2 :=
  claim_C7 fadeAnim 0.1 1 2 ('a' :: []) (by norm_num [completionTime, fadeAnim])
    (by norm_num) (by norm_num)

/-- Claim C8: diffing a text against itself (any mode) yields only unchanged
segments whose concatenation is the text; for a non-empty text the result is
the single unchanged segment holding the whole text. -/
theorem claim_C8 (mode : DiffMode) (t : List Char) :
    (∀ s ∈ diffText mode t t, s.kind = .unchanged) ∧
      concatAll (diffText mode t t) = t ∧
      (t ≠ [] → diffText mode t t = [⟨t, .unchanged⟩]) := by
  rw [diffText_self]
  by_cases h : t = []
  · subst h
    simp [concatAll]
  · rw [if_neg h]
    refine ⟨?_, ?_, fun _ => rfl⟩
    · intro s hs
      simp at hs
      rw [hs]
    · simp [concatAll]

/-- Witness for C8 at the one-character text "a" in word mode. -/
theorem claim_C8_witness :
    diffText .words ('a' :: []) ('a' :: []) = [⟨'a' :: [], .unchanged⟩] :=
  (claim_C8 .words ('a' :: [])).2.2 (by decide)

/-- Claim C9: in word mode, diffing "" against "hello" gives exactly one
added segment "hello", diffing "hello" against "" gives exactly one removed
segment "hello", and diffing "" against "" gives the empty sequence. -/
theorem claim_C9 :
    diffText .words [] "hello".toList = [⟨"hello".toList, .added⟩] ∧
      diffText .words "hello".toList [] = [⟨"hello".toList, .removed⟩] ∧
      diffText .words [] [] = ([] : List Segment) := by
  refine ⟨?_, ?_, rfl⟩ <;> rfl

/-- Claim C10: over one mounted component's lifetime the completed-removal
set only grows — the completion callback (its only writer) returns a superset
of the previous set containing the reported index, no event ever removes an
index — and the membership check suppresses only removed segments: the render
of a non-removed segment does not depend on the set at all. -/
theorem claim_C10 (prev : Finset Nat) (i : Nat) (s : DiffTextState)
    (e : DiffTextEvent) (es : List DiffTextEvent) (sr ac : Bool)
    (rp : Finset Nat) (idx : Nat) (seg : Segment) (h : seg.kind ≠ .removed) :
    prev ⊆ handleRemoveComplete prev i ∧
      i ∈ handleRemoveComplete prev i ∧
      s.removedParts ⊆ (s.step e).removedParts ∧
      s.removedParts ⊆ (s.run es).removedParts ∧
      renderSegment sr ac rp idx seg = renderSegment sr ac ∅ idx seg :=
  ⟨Finset.subset_insert _ _, Finset.mem_insert_self _ _,
    removedParts_step_mono s e, removedParts_run_mono es s,
    renderSegment_indep sr ac rp idx seg h⟩

/-- Witness for C10 at concrete sets, events and an unchanged segment. -/
theorem claim_C10_witness :
    ({1} : Finset Nat) ⊆ handleRemoveComplete {1} 5 ∧
      5 ∈ handleRemoveComplete {1} 5 ∧
      (⟨[], [], .words, ∅⟩ : DiffTextState).removedParts ⊆
        (DiffTextState.step ⟨[], [], .words, ∅⟩ (.removeComplete 3)).removedParts ∧
      (⟨[], [], .words, ∅⟩ : DiffTextState).removedParts ⊆
        (DiffTextState.run ⟨[], [], .words, ∅⟩ []).removedParts ∧
      renderSegment true true {0} 0 ⟨'x' :: [], .unchanged⟩ =
        renderSegment true true ∅ 0 ⟨'x' :: [], .unchanged⟩ :=
  claim_C10 {1} 5 ⟨[], [], .words, ∅⟩ (.removeComplete 3) [] true true {0} 0
    ⟨'x' :: [], .unchanged⟩ (by decide)

end DiffTextSpec
